import Mathlib

/-!
Verification of the stats-collection core (`app/main.py`, `app/dashboard.py`).

Modelling conventions for the shallow embedding:
* Python strings are lists of Unicode code points (`PyStr := List Nat`);
  `str.strip` / `str.lower` become `pyStrip` / `pyLower` (ASCII whitespace set).
* Python floats are modelled as exact rationals (`ℚ`); all the float
  arithmetic the claims touch (median averaging, threshold comparison,
  fixed-point formatting of exactly representable values) is exact.
* `datetime` values (parsed from ISO-8601 receipt timestamps) are modelled by
  their position on the time axis as an `Int`; only their linear order is used.
* pydantic validation is modelled in two phases, as pydantic executes it:
  per-field checks (constraints first, then the field validator) collected in
  field-declaration order, and the `mode="after"` model validator running only
  when no field check failed.
-/

/-- Python strings as lists of Unicode code points. -/
abbrev PyStr := List Nat

/-- Code points of a Lean string literal, used to write `PyStr` constants. -/
def strL (s : String) : PyStr := s.data.map Char.toNat

/-- ASCII whitespace recognised by `str.strip` (space, tab, LF, VT, FF, CR). -/
def isPySpace (c : Nat) : Bool :=
  c = 32 || c = 9 || c = 10 || c = 11 || c = 12 || c = 13

/-- `str.strip()`: drop leading and trailing whitespace. -/
def pyStrip (s : PyStr) : PyStr :=
  ((s.dropWhile isPySpace).reverse.dropWhile isPySpace).reverse

/-- `str.lower()` on one ASCII code point. -/
def lowerCp (c : Nat) : Nat := if 65 ≤ c ∧ c ≤ 90 then c + 32 else c

/-- `str.lower()`. -/
def pyLower (s : PyStr) : PyStr := s.map lowerCp

/-- Code point of a hex digit (`0-9`, `a-f`, `A-F`). -/
def isHexCp (c : Nat) : Bool :=
  (48 ≤ c && c ≤ 57) || (97 ≤ c && c ≤ 102) || (65 ≤ c && c ≤ 70)

/-- Code point admitted by the run-id pattern: hex digit or hyphen. -/
def isRunIdCp (c : Nat) : Bool := isHexCp c || c = 45

/-- The regex of `main.py`: 64 hex digits, any case. -/
def matchHex64 (s : PyStr) : Bool := decide (s.length = 64) && s.all isHexCp

/-- The regex of `main.py`: hex digits and hyphens, length 16 to 64. -/
def matchRunId (s : PyStr) : Bool :=
  (decide (16 ≤ s.length) && decide (s.length ≤ 64)) && s.all isRunIdCp

/-- The `RunStats` payload of `main.py` (field order as declared there).
Optional fields are `Option`, ints are `Int`, floats are exact rationals. -/
structure RunStatsPayload where
  schemaVersion : Int
  runId : PyStr
  deviceId : PyStr
  hwModel : Option PyStr
  gpuName : Option PyStr
  gpuBackend : Option PyStr
  backend : PyStr
  osVersion : PyStr
  appVersion : PyStr
  batch : Option Int
  inflight : Option Int
  batchMin : Option Int
  batchMax : Option Int
  inflightMin : Option Int
  inflightMax : Option Int
  autoBatch : Bool
  autoInflight : Bool
  elapsedSec : ℚ
  totalCount : Int
  totalRate : ℚ
  cpuRate : ℚ
  gpuRate : ℚ
  cpuAvg : ℚ
  gpuAvg : ℚ
deriving DecidableEq

/-- Errors of the `schemaVersion` field check (`ge=1`). -/
def svErrs (p : RunStatsPayload) : List String :=
  if p.schemaVersion < 1 then ["schemaVersion must be >= 1"] else []

/-- Errors of the `runId` field: pydantic length constraints on the raw value,
then the after-validator stripping and matching the run-id pattern. -/
def runIdErrs (v : PyStr) : List String :=
  if v.length < 16 ∨ 64 < v.length then ["runId length out of range"]
  else if !matchRunId (pyStrip v) then ["runId must be a uuid-like string"]
  else []

/-- Errors of the `deviceId` field: pydantic length constraint on the raw
value, then the after-validator stripping and matching the 64-hex pattern. -/
def deviceIdErrs (v : PyStr) : List String :=
  if v.length ≠ 64 then ["deviceId length out of range"]
  else if !matchHex64 (pyStrip v) then ["deviceId must be a 64-char hex string"]
  else []

/-- Check an optional string against a maximum length. -/
def optMaxLenErrs (v : Option PyStr) (n : Nat) (msg : String) : List String :=
  match v with
  | none => []
  | some s => if n < s.length then [msg] else []

/-- Check an optional int against an inclusive range. -/
def optRangeErrs (v : Option Int) (lo hi : Int) (msg : String) : List String :=
  match v with
  | none => []
  | some x => if x < lo ∨ hi < x then [msg] else []

/-- Errors of every field after `deviceId`, in field-declaration order. -/
def restErrs (p : RunStatsPayload) : List String :=
  optMaxLenErrs p.hwModel 128 "hwModel too long"
  ++ optMaxLenErrs p.gpuName 128 "gpuName too long"
  ++ (match p.gpuBackend with
      | none => []
      | some v =>
        if v = strL "mps" ∨ v = strL "metal" then []
        else ["gpuBackend must be mps or metal"])
  ++ (if p.backend = strL "cpu" ∨ p.backend = strL "mps" ∨ p.backend = strL "all"
      then [] else ["backend must be cpu, mps or all"])
  ++ (if 128 < p.osVersion.length then ["osVersion too long"] else [])
  ++ (if 64 < p.appVersion.length then ["appVersion too long"] else [])
  ++ optRangeErrs p.batch 1 65536 "batch out of range"
  ++ optRangeErrs p.inflight 1 1024 "inflight out of range"
  ++ optRangeErrs p.batchMin 1 65536 "batchMin out of range"
  ++ optRangeErrs p.batchMax 1 65536 "batchMax out of range"
  ++ optRangeErrs p.inflightMin 1 1024 "inflightMin out of range"
  ++ optRangeErrs p.inflightMax 1 1024 "inflightMax out of range"
  ++ (if p.elapsedSec ≤ 0 ∨ (31536000 : ℚ) < p.elapsedSec
      then ["elapsedSec out of range"] else [])
  ++ (if p.totalCount < 0 ∨ (1000000000000000 : Int) < p.totalCount
      then ["totalCount out of range"] else [])
  ++ (if p.totalRate < 0 ∨ (1000000000 : ℚ) < p.totalRate
      then ["totalRate out of range"] else [])
  ++ (if p.cpuRate < 0 ∨ (1000000000 : ℚ) < p.cpuRate
      then ["cpuRate out of range"] else [])
  ++ (if p.gpuRate < 0 ∨ (1000000000 : ℚ) < p.gpuRate
      then ["gpuRate out of range"] else [])
  ++ (if p.cpuAvg < -1000 ∨ (1000 : ℚ) < p.cpuAvg
      then ["cpuAvg out of range"] else [])
  ++ (if p.gpuAvg < -1000 ∨ (1000 : ℚ) < p.gpuAvg
      then ["gpuAvg out of range"] else [])

/-- All per-field errors, in field-declaration order (phase 1 of pydantic). -/
def fieldErrors (p : RunStatsPayload) : List String :=
  svErrs p ++ runIdErrs p.runId ++ deviceIdErrs p.deviceId ++ restErrs p

/-- The canonicalisation the field validators perform on an admitted payload:
strip `runId`, strip and lowercase `deviceId`. -/
def normalizePayload (p : RunStatsPayload) : RunStatsPayload :=
  { p with runId := pyStrip p.runId, deviceId := pyLower (pyStrip p.deviceId) }

/-- `some a > some b` comparison used by the cross-field checks: a violation
exists when both bounds are present and the right one is below the left. -/
def ltViol (lo hi : Option Int) : Bool :=
  match lo, hi with
  | some a, some b => decide (b < a)
  | _, _ => false

/-- The `mode="after"` model validator `_validate_ranges`: the six cross-field
checks in source order, short-circuiting on the first violated rule. -/
def crossError (m : RunStatsPayload) : Option String :=
  if ltViol m.batchMin m.batchMax then some "batchMin must be <= batchMax"
  else if ltViol m.inflightMin m.inflightMax then
    some "inflightMin must be <= inflightMax"
  else if ltViol m.batchMin m.batch then some "batch must be >= batchMin"
  else if ltViol m.batch m.batchMax then some "batch must be <= batchMax"
  else if ltViol m.inflightMin m.inflight then
    some "inflight must be >= inflightMin"
  else if ltViol m.inflight m.inflightMax then
    some "inflight must be <= inflightMax"
  else none

/-- Full pydantic validation of a `RunStats` payload: collect per-field errors
first; only when none exist build the normalized model and run the cross-field
model validator on it. -/
def validateRunStats (p : RunStatsPayload) : Except (List String) RunStatsPayload :=
  match fieldErrors p with
  | e :: es => .error (e :: es)
  | [] =>
    let m := normalizePayload p
    match crossError m with
    | some e => .error [e]
    | none => .ok m

/-- Whether validation admitted the payload. -/
def isAccepted (r : Except (List String) RunStatsPayload) : Bool :=
  match r with
  | .ok _ => true
  | .error _ => false

/-- The `RunSample` dataclass of `dashboard.py`. -/
structure RunSample where
  received_at : Int
  app_version : PyStr
  total_rate : ℚ
  total_count : Int
  elapsed_sec : ℚ
deriving DecidableEq

/-- The `DashboardSummary` dataclass of `dashboard.py`. -/
structure DashboardSummary where
  estimated_rate : ℚ
  sample_count : Nat
  total_runs : Nat
  unique_versions : Nat
  last_received_at : Option Int
deriving DecidableEq

/-- Insert an element into a key-sorted list, before any element of equal key
(the placement a stable sort gives to the earlier-listed element). -/
def insSorted {α β : Type} [LinearOrder β] (k : α → β) (x : α) : List α → List α
  | [] => [x]
  | a :: l => if k x ≤ k a then x :: a :: l else a :: insSorted k x l

/-- Stable insertion sort by a key, modelling Python's stable `sorted`. -/
def sortByKey {α β : Type} [LinearOrder β] (k : α → β) : List α → List α
  | [] => []
  | x :: l => insSorted k x (sortByKey k l)

/-- `statistics.median`: sort ascending; odd length takes the middle element,
even length averages the two middle elements. (Python raises on the empty
list; the embedding returns 0 there, a case no caller reaches.) -/
def median (l : List ℚ) : ℚ :=
  let s := sortByKey id l
  let n := s.length
  if n = 0 then 0
  else if n % 2 = 1 then s.getD (n / 2) 0
  else (s.getD (n / 2 - 1) 0 + s.getD (n / 2) 0) / 2

/-- `build_summary` of `dashboard.py`: zero summary on empty input, otherwise
the median rate of the trailing `samples[-50:]` window, counters, the set of
non-empty versions over all samples, and the timestamp of the last sample. -/
def build_summary (samples : List RunSample) : DashboardSummary :=
  if samples.isEmpty then
    { estimated_rate := 0, sample_count := 0, total_runs := 0,
      unique_versions := 0, last_received_at := none }
  else
    let recent :=
      if 50 < samples.length then samples.drop (samples.length - 50) else samples
    let versions :=
      ((samples.map RunSample.app_version).filter (fun v => decide (v ≠ []))).dedup
    { estimated_rate := median (recent.map RunSample.total_rate)
      sample_count := recent.length
      total_runs := samples.length
      unique_versions := versions.length
      last_received_at := (samples.getLast?).map RunSample.received_at }

/-- Loop of `_app_version_boundaries`: `last_version` starts at `None` and a
boundary is emitted whenever the current version differs from it. -/
def boundariesAux (last : Option PyStr) : List RunSample → List (Int × PyStr)
  | [] => []
  | s :: rest =>
    if last ≠ some s.app_version then
      (s.received_at, s.app_version) :: boundariesAux (some s.app_version) rest
    else boundariesAux last rest

/-- `_app_version_boundaries` of `dashboard.py`. -/
def app_version_boundaries (samples : List RunSample) : List (Int × PyStr) :=
  boundariesAux none samples

/-- `buckets.setdefault(v, []).append(r)` on an insertion-ordered association
list of rate lists. -/
def bucketAdd (b : List (PyStr × List ℚ)) (v : PyStr) (r : ℚ) :
    List (PyStr × List ℚ) :=
  match b with
  | [] => [(v, [r])]
  | (k, rs) :: rest =>
    if k = v then (k, rs ++ [r]) :: rest else (k, rs) :: bucketAdd rest v r

/-- First loop of `_summarize_by_version`: fill the buckets, skipping samples
whose version is empty. -/
def buildBuckets (samples : List RunSample) : List (PyStr × List ℚ) :=
  samples.foldl
    (fun b s => if s.app_version = [] then b else bucketAdd b s.app_version s.total_rate)
    []

/-- `buckets.get(v, [])`. -/
def bucketGet (b : List (PyStr × List ℚ)) (v : PyStr) : List ℚ :=
  match b with
  | [] => []
  | (k, rs) :: rest => if k = v then rs else bucketGet rest v

/-- Second loop of `_summarize_by_version`: collect versions in first-seen
order, skipping empty versions. (The Python `seen` set is modelled by
membership in the accumulated ordered list, which holds the same elements.) -/
def orderedVersionsAux (acc : List PyStr) : List RunSample → List PyStr
  | [] => []
  | s :: rest =>
    if s.app_version ≠ [] ∧ s.app_version ∉ acc then
      s.app_version :: orderedVersionsAux (s.app_version :: acc) rest
    else orderedVersionsAux acc rest

/-- Versions in first-seen order, empty versions skipped. -/
def orderedVersions (samples : List RunSample) : List PyStr :=
  orderedVersionsAux [] samples

/-- `_summarize_by_version` of `dashboard.py`: per-version median rate in
first-seen order, keeping only versions whose bucket is non-empty. -/
def summarize_by_version (samples : List RunSample) : List (PyStr × ℚ) :=
  let buckets := buildBuckets samples
  (orderedVersions samples).filterMap
    (fun v =>
      let rates := bucketGet buckets v
      if rates ≠ [] then some (v, median rates) else none)

/-- Round-half-to-even of an exact rational, as Python fixed-point formatting
rounds (the float being formatted is exact in this model). -/
def roundHalfEven (q : ℚ) : ℤ :=
  let f := ⌊q⌋
  if q - f < 1 / 2 then f
  else if (1 : ℚ) / 2 < q - f then f + 1
  else if f % 2 = 0 then f else f + 1

/-- Left-pad a numeral string with zeros to a given width. -/
def padZeros (d : Nat) (s : String) : String :=
  String.mk (List.replicate (d - s.length) '0') ++ s

/-- Python `f"{q:.df}"` for non-negative `q`: fixed-point with `d` decimals,
rounding half to even. -/
def formatFixed (d : Nat) (q : ℚ) : String :=
  let n := roundHalfEven (q * (10 : ℚ) ^ d)
  let p : Int := (10 : Int) ^ d
  let ip := n / p
  let fp := (n % p).toNat
  if d = 0 then toString ip
  else toString ip ++ "." ++ padZeros d (toString fp)

/-- `_format_rate` of `dashboard.py`. -/
def format_rate (rate : ℚ) : String :=
  if 1000000000 ≤ rate then formatFixed 2 (rate / 1000000000) ++ "B/s"
  else if 1000000 ≤ rate then formatFixed 2 (rate / 1000000) ++ "M/s"
  else if 1000 ≤ rate then formatFixed 1 (rate / 1000) ++ "k/s"
  else formatFixed 1 rate ++ "/s"

/-- `_format_number` of `dashboard.py`. -/
def format_number (value : ℚ) : String :=
  if 1000000000 ≤ value then formatFixed 2 (value / 1000000000) ++ "B"
  else if 1000000 ≤ value then formatFixed 2 (value / 1000000) ++ "M"
  else if 1000 ≤ value then formatFixed 1 (value / 1000) ++ "k"
  else formatFixed 0 value

/-- One stored row as handed to `parse_samples` by the store: receipt
timestamp (its position on the time axis), app version, total rate, total
count, elapsed seconds. -/
structure StoredRow where
  received_at : Int
  app_version : PyStr
  total_rate : ℚ
  total_count : Int
  elapsed_sec : ℚ
deriving DecidableEq

/-- Row-to-sample projection of `parse_samples`: `app_version or "unknown"`
replaces an empty version with the literal token. -/
def rowToSample (r : StoredRow) : RunSample :=
  { received_at := r.received_at
    app_version := if r.app_version = [] then strL "unknown" else r.app_version
    total_rate := r.total_rate
    total_count := r.total_count
    elapsed_sec := r.elapsed_sec }

/-- `parse_samples` of `dashboard.py`: project every row, then stably sort
ascending by receipt timestamp. -/
def parse_samples (rows : List StoredRow) : List RunSample :=
  sortByKey RunSample.received_at (rows.map rowToSample)

/-- Spec-side description of boundary detection: keep exactly the samples
whose version differs from the immediately preceding sample's version (the
first sample has no predecessor and is always kept), paired with predecessors
via `zip`. -/
def boundarySpec (samples : List RunSample) : List (Int × PyStr) :=
  ((samples.zip (none :: samples.map (fun s => some s.app_version))).filter
    (fun q => decide (q.2 ≠ some q.1.app_version))).map
    (fun q => (q.1.received_at, q.1.app_version))

/-- Spec-side first-seen deduplication: keep the first occurrence of each
element, delete every later duplicate. -/
def dedupKeepFirst : List PyStr → List PyStr
  | [] => []
  | v :: l => v :: dedupKeepFirst (l.filter (fun w => decide (w ≠ v)))
termination_by l => l.length
decreasing_by
  simp only [List.length_cons]
  exact Nat.lt_succ_of_le (List.length_filter_le _ _)

/-- Modelled from the spec's words, for comparison with the source bucketizer:
bucket filling without the empty-version skip. -/
def buildBucketsAll (samples : List RunSample) : List (PyStr × List ℚ) :=
  samples.foldl (fun b s => bucketAdd b s.app_version s.total_rate) []

/-- Modelled from the spec's words, for comparison: first-seen version order
without the empty-version skip. -/
def orderedVersionsAllAux (acc : List PyStr) : List RunSample → List PyStr
  | [] => []
  | s :: rest =>
    if s.app_version ∉ acc then
      s.app_version :: orderedVersionsAllAux (s.app_version :: acc) rest
    else orderedVersionsAllAux acc rest

/-- Modelled from the spec's words, for comparison: the version bucketizer
with the empty-version skip removed everywhere. -/
def summarize_by_version_all (samples : List RunSample) : List (PyStr × ℚ) :=
  let buckets := buildBucketsAll samples
  (orderedVersionsAllAux [] samples).filterMap
    (fun v =>
      let rates := bucketGet buckets v
      if rates ≠ [] then some (v, median rates) else none)

/-- Strict "earlier in time, ties by original index" order on index-tagged
samples; a stable time sort is exactly an arrangement strictly sorted by it. -/
def tsIdxLT (a b : Nat × RunSample) : Prop :=
  a.2.received_at < b.2.received_at ∨
    (a.2.received_at = b.2.received_at ∧ a.1 < b.1)

/-- The error list of a rejection (empty for an admission). -/
def rejectionErrors (r : Except (List String) RunStatsPayload) : List String :=
  match r with
  | .error es => es
  | .ok _ => []

/-- A payload every check of `RunStats` admits, already in canonical form. -/
def okPayload : RunStatsPayload :=
  { schemaVersion := 1
    runId := strL "0123456789abcdef"
    deviceId := strL "aaaaaaaaaaaaaaaaaaaaaaaaaaaaaaaaaaaaaaaaaaaaaaaaaaaaaaaaaaaaaaaa"
    hwModel := none
    gpuName := none
    gpuBackend := none
    backend := strL "cpu"
    osVersion := strL "14.0"
    appVersion := strL "1.0.0"
    batch := none
    inflight := none
    batchMin := none
    batchMax := none
    inflightMin := none
    inflightMax := none
    autoBatch := false
    autoInflight := false
    elapsedSec := 1
    totalCount := 0
    totalRate := 0
    cpuRate := 0
    gpuRate := 0
    cpuAvg := 0
    gpuAvg := 0 }

/-- Otherwise-valid payload whose `deviceId` is 64 hex digits plus a trailing
space: the trimmed value matches the 64-hex pattern, the raw value has
length 65. -/
def cexDevicePayload : RunStatsPayload :=
  { okPayload with
    deviceId := strL "aaaaaaaaaaaaaaaaaaaaaaaaaaaaaaaaaaaaaaaaaaaaaaaaaaaaaaaaaaaaaaaa " }

/-- Payload with `batchMin > batchMax` and also an individually invalid
`runId` (too short). -/
def cexFieldPayload : RunStatsPayload :=
  { okPayload with runId := strL "xyz", batchMin := some 2, batchMax := some 1 }

/-- Payload with `batchMin > batchMax` and every individual field valid. -/
def wBatchPayload : RunStatsPayload :=
  { okPayload with batchMin := some 2, batchMax := some 1 }

/-- Otherwise-valid payload whose `runId` carries surrounding whitespace and
whose `deviceId` is 64 uppercase hex digits. -/
def wTrimPayload : RunStatsPayload :=
  { okPayload with
    runId := strL " 0123456789ABCDEF "
    deviceId := strL "AAAAAAAAAAAAAAAAAAAAAAAAAAAAAAAAAAAAAAAAAAAAAAAAAAAAAAAAAAAAAAAA" }

/-- Sample constructor used by the concrete examples. -/
def mkSample (t : Int) (v : PyStr) (r : ℚ) : RunSample :=
  { received_at := t, app_version := v, total_rate := r,
    total_count := 0, elapsed_sec := 1 }

/-- Three time-ascending samples with rates 100, 200, 9000. -/
def exSummary : List RunSample :=
  [mkSample 1 (strL "v1") 100, mkSample 2 (strL "v1") 200,
   mkSample 3 (strL "v2") 9000]

/-- Versions `[A, A, B, B, A]` in time order. -/
def exBoundary : List RunSample :=
  [mkSample 1 (strL "A") 1, mkSample 2 (strL "A") 2, mkSample 3 (strL "B") 3,
   mkSample 4 (strL "B") 4, mkSample 5 (strL "A") 5]

/-- Versions first seen in order `[v2, v1, v2, v3]`. -/
def exBuckets : List RunSample :=
  [mkSample 1 (strL "v2") 10, mkSample 2 (strL "v1") 20,
   mkSample 3 (strL "v2") 30, mkSample 4 (strL "v3") 40]

/-- 51 time-ascending samples: the oldest one carries version `w1`, the 50
samples of the trailing window all carry `w2`. -/
def exWindow : List RunSample :=
  mkSample 0 (strL "w1") 1 :: List.replicate 50 (mkSample 1 (strL "w2") 2)

/-- Two stored rows in storage (query) order, newest first; the older row has
an empty app version. -/
def exRows : List StoredRow :=
  [{ received_at := 2, app_version := strL "v1", total_rate := 7,
     total_count := 0, elapsed_sec := 1 },
   { received_at := 1, app_version := [], total_rate := 5,
     total_count := 0, elapsed_sec := 1 }]

/-- A single sample with version `x` and rate 7. -/
def exSingle : List RunSample := [mkSample 1 (strL "x") 7]

/-- The parsed form of the empty-version row of `exRows`: its version is the
literal token `unknown`. -/
def sUnknown : RunSample :=
  { received_at := 1, app_version := strL "unknown", total_rate := 5,
    total_count := 0, elapsed_sec := 1 }

theorem mem_insSorted {α β : Type} [LinearOrder β] (k : α → β) (x y : α)
    (l : List α) : y ∈ insSorted k x l ↔ y = x ∨ y ∈ l := by
  induction l with
  | nil => simp [insSorted]
  | cons a l ih =>
    simp only [insSorted]
    split
    · simp
    · simp only [List.mem_cons, ih]
      tauto

theorem insSorted_perm {α β : Type} [LinearOrder β] (k : α → β) (x : α)
    (l : List α) : List.Perm (insSorted k x l) (x :: l) := by
  induction l with
  | nil => exact List.Perm.refl _
  | cons a l ih =>
    simp only [insSorted]
    split
    · exact List.Perm.refl _
    · exact List.Perm.trans (List.Perm.cons a ih) (List.Perm.swap x a l)

theorem sortByKey_perm {α β : Type} [LinearOrder β] (k : α → β) (l : List α) :
    List.Perm (sortByKey k l) l := by
  induction l with
  | nil => exact List.Perm.refl _
  | cons x l ih =>
    exact List.Perm.trans (insSorted_perm k x (sortByKey k l)) (List.Perm.cons x ih)

theorem mem_sortByKey {α β : Type} [LinearOrder β] (k : α → β) (y : α)
    (l : List α) : y ∈ sortByKey k l ↔ y ∈ l :=
  (sortByKey_perm k l).mem_iff

theorem insSorted_map_comm {α γ β : Type} [LinearOrder β] (f : α → γ)
    (k : γ → β) (x : α) (l : List α) :
    (insSorted (fun a => k (f a)) x l).map f = insSorted k (f x) (l.map f) := by
  induction l with
  | nil => simp [insSorted]
  | cons a l ih =>
    by_cases h : k (f x) ≤ k (f a)
    · simp [insSorted, h]
    · simp [insSorted, h, ih]

theorem sortByKey_map_comm {α γ β : Type} [LinearOrder β] (f : α → γ)
    (k : γ → β) (l : List α) :
    (sortByKey (fun a => k (f a)) l).map f = sortByKey k (l.map f) := by
  induction l with
  | nil => simp [sortByKey]
  | cons x l ih =>
    simp only [sortByKey, List.map_cons]
    rw [insSorted_map_comm, ih]

theorem insSorted_pairwise_stable {α β : Type} [LinearOrder β] (k : α → β)
    (t : α → Nat) (x : α) (l : List α)
    (hl : l.Pairwise (fun a b => k a < k b ∨ (k a = k b ∧ t a < t b)))
    (hx : ∀ y ∈ l, t x < t y) :
    (insSorted k x l).Pairwise
      (fun a b => k a < k b ∨ (k a = k b ∧ t a < t b)) := by
  induction l with
  | nil => simp [insSorted]
  | cons a l ih =>
    rcases List.pairwise_cons.mp hl with ⟨ha, hl'⟩
    simp only [insSorted]
    split
    · rename_i hle
      refine List.pairwise_cons.mpr ⟨?_, hl⟩
      intro y hy
      rcases List.mem_cons.mp hy with rfl | hy'
      · rcases lt_or_eq_of_le hle with h | h
        · exact Or.inl h
        · exact Or.inr ⟨h, hx y (List.mem_cons_self _ _)⟩
      · have hay := ha y hy'
        have hky : k a ≤ k y := by
          rcases hay with h | ⟨h, _⟩
          · exact le_of_lt h
          · exact le_of_eq h
        rcases lt_or_eq_of_le (le_trans hle hky) with h | h
        · exact Or.inl h
        · exact Or.inr ⟨h, hx y (List.mem_cons_of_mem _ hy')⟩
    · rename_i hgt
      push_neg at hgt
      refine List.pairwise_cons.mpr ⟨?_, ?_⟩
      · intro y hy
        rcases (mem_insSorted k x y l).mp hy with rfl | hy'
        · exact Or.inl hgt
        · exact ha y hy'
      · exact ih hl' (fun y hy => hx y (List.mem_cons_of_mem _ hy))

theorem sortByKey_pairwise_stable {α β : Type} [LinearOrder β] (k : α → β)
    (t : α → Nat) (l : List α) (hl : l.Pairwise (fun a b => t a < t b)) :
    (sortByKey k l).Pairwise
      (fun a b => k a < k b ∨ (k a = k b ∧ t a < t b)) := by
  induction l with
  | nil => simp [sortByKey]
  | cons x l ih =>
    rcases List.pairwise_cons.mp hl with ⟨hx, hl'⟩
    exact insSorted_pairwise_stable k t x (sortByKey k l) (ih hl')
      (fun y hy => hx y ((mem_sortByKey k y l).mp hy))

theorem enum_pairwise_fst_lt {α : Type} (l : List α) :
    l.enum.Pairwise (fun a b => a.1 < b.1) := by
  rw [List.enum_eq_zip_range]
  have hlen : (List.range l.length).length ≤ l.length := by
    simp
  have h := List.pairwise_lt_range l.length
  have hmap : ((List.range l.length).zip l).map Prod.fst = List.range l.length :=
    List.map_fst_zip _ _ hlen
  have := (List.pairwise_map).mp (hmap ▸ h)
  exact this

theorem boundariesAux_eq (l : List RunSample) :
    ∀ last : Option PyStr,
    boundariesAux last l =
      ((l.zip (last :: l.map (fun s => some s.app_version))).filter
        (fun q => decide (q.2 ≠ some q.1.app_version))).map
        (fun q => (q.1.received_at, q.1.app_version)) := by
  induction l with
  | nil => intro last; simp [boundariesAux]
  | cons s rest ih =>
    intro last
    by_cases h : last = some s.app_version
    · subst h
      simp only [boundariesAux, List.zip_cons_cons, List.filter_cons]
      simp [ih (some s.app_version)]
    · simp only [boundariesAux, List.zip_cons_cons, List.filter_cons]
      simp [h, ih (some s.app_version)]

/-- Claim C4: for every time-ascending sample sequence, version-boundary
detection emits a boundary exactly at each sample whose application version
differs from the immediately preceding sample's version, the first sample
always being a boundary; in particular for versions `[A,A,B,B,A]` in time
order there are exactly three boundaries, at the 1st, 3rd and 5th samples,
a version reappearing after a different one re-emitting a new boundary. -/
theorem C4_version_boundaries :
    (∀ samples : List RunSample,
      app_version_boundaries samples = boundarySpec samples)
    ∧ exBoundary.map RunSample.app_version =
        [strL "A", strL "A", strL "B", strL "B", strL "A"]
    ∧ app_version_boundaries exBoundary =
        [(1, strL "A"), (3, strL "B"), (5, strL "A")]
    ∧ exBoundary.map RunSample.received_at = [1, 2, 3, 4, 5] := by
  refine ⟨?_, by decide, by decide, by decide⟩
  intro samples
  exact boundariesAux_eq samples none

/-- Claim C7: for every input row order handed over by the store,
`parse_samples` returns the projected samples sorted ascending by receipt
timestamp with ties broken by original storage order: tagging each projected
sample with its input position, the output is a permutation of the input
that is strictly sorted by (timestamp, original position). -/
theorem C7_parse_samples_stable_sort :
    ∀ rows : List StoredRow,
    (sortByKey (fun p => RunSample.received_at p.2)
        ((rows.map rowToSample).enum)).map Prod.snd = parse_samples rows
    ∧ List.Perm
        (sortByKey (fun p => RunSample.received_at p.2)
          ((rows.map rowToSample).enum))
        ((rows.map rowToSample).enum)
    ∧ (sortByKey (fun p => RunSample.received_at p.2)
        ((rows.map rowToSample).enum)).Pairwise tsIdxLT := by
  intro rows
  refine ⟨?_, ?_, ?_⟩
  · rw [sortByKey_map_comm Prod.snd RunSample.received_at]
    rw [List.enum_map_snd]
    rfl
  · exact sortByKey_perm _ _
  · have h := sortByKey_pairwise_stable (fun p : Nat × RunSample => RunSample.received_at p.2)
      Prod.fst ((rows.map rowToSample).enum) (enum_pairwise_fst_lt _)
    exact h.imp (fun hab => hab)

theorem dropWhile_eq_self_of_all_false (p : Nat → Bool) (l : List Nat)
    (h : ∀ c ∈ l, p c = false) : l.dropWhile p = l := by
  cases l with
  | nil => rfl
  | cons a l => simp [List.dropWhile_cons, h a (List.mem_cons_self a l)]

theorem pyStrip_eq_self (s : PyStr) (h : ∀ c ∈ s, isPySpace c = false) :
    pyStrip s = s := by
  unfold pyStrip
  rw [dropWhile_eq_self_of_all_false _ _ h]
  rw [dropWhile_eq_self_of_all_false _ _
    (fun c hc => h c (List.mem_reverse.mp hc))]
  exact s.reverse_reverse

theorem isRunIdCp_not_space (c : Nat) (h : isRunIdCp c = true) :
    isPySpace c = false := by
  simp [isRunIdCp, isHexCp] at h
  simp [isPySpace]
  omega

theorem isHexCp_not_space (c : Nat) (h : isHexCp c = true) :
    isPySpace c = false := by
  simp [isHexCp] at h
  simp [isPySpace]
  omega

theorem lowerCp_idem (c : Nat) : lowerCp (lowerCp c) = lowerCp c := by
  unfold lowerCp
  split_ifs <;> omega

theorem isHexCp_lowerCp (c : Nat) (h : isHexCp c = true) :
    isHexCp (lowerCp c) = true := by
  simp [isHexCp] at h ⊢
  simp only [lowerCp]
  split <;> omega

theorem pyLower_idem (s : PyStr) : pyLower (pyLower s) = pyLower s := by
  simp only [pyLower, List.map_map]
  exact List.map_congr_left (fun c _ => lowerCp_idem c)

theorem matchRunId_iff (s : PyStr) :
    matchRunId s = true ↔
      16 ≤ s.length ∧ s.length ≤ 64 ∧ ∀ c ∈ s, isRunIdCp c = true := by
  simp [matchRunId, List.all_eq_true, and_assoc]

theorem matchHex64_iff (s : PyStr) :
    matchHex64 s = true ↔ s.length = 64 ∧ ∀ c ∈ s, isHexCp c = true := by
  simp [matchHex64, List.all_eq_true]

theorem matchHex64_pyLower (s : PyStr) (h : matchHex64 s = true) :
    matchHex64 (pyLower s) = true := by
  rcases (matchHex64_iff s).mp h with ⟨hlen, hall⟩
  refine (matchHex64_iff _).mpr ⟨?_, ?_⟩
  · simpa [pyLower] using hlen
  · intro c hc
    rcases List.mem_map.mp hc with ⟨b, hb, rfl⟩
    exact isHexCp_lowerCp b (hall b hb)

theorem pyStrip_of_matchRunId (s : PyStr) (h : matchRunId s = true) :
    pyStrip s = s :=
  pyStrip_eq_self s
    (fun c hc => isRunIdCp_not_space c (((matchRunId_iff s).mp h).2.2 c hc))

theorem pyStrip_of_matchHex64 (s : PyStr) (h : matchHex64 s = true) :
    pyStrip s = s :=
  pyStrip_eq_self s
    (fun c hc => isHexCp_not_space c (((matchHex64_iff s).mp h).2 c hc))

theorem runIdErrs_eq_nil (v : PyStr) :
    runIdErrs v = [] ↔
      16 ≤ v.length ∧ v.length ≤ 64 ∧ matchRunId (pyStrip v) = true := by
  simp only [runIdErrs]
  split_ifs with h1 h2
  all_goals simp_all
  all_goals omega

theorem deviceIdErrs_eq_nil (v : PyStr) :
    deviceIdErrs v = [] ↔ v.length = 64 ∧ matchHex64 (pyStrip v) = true := by
  simp only [deviceIdErrs]
  split_ifs with h1 h2 <;> simp_all

theorem fieldErrors_eq_nil (p : RunStatsPayload) :
    fieldErrors p = [] ↔
      svErrs p = [] ∧ runIdErrs p.runId = [] ∧ deviceIdErrs p.deviceId = []
      ∧ restErrs p = [] := by
  simp [fieldErrors, List.append_eq_nil]

/-- Claim C9: validation is idempotent on valid inputs: a payload admitted
with normalized record `r` is admitted again when `r` is fed back, yielding
the identical record (trimming and lowercasing are stable). -/
theorem C9_validate_idempotent :
    ∀ p r : RunStatsPayload,
      validateRunStats p = .ok r → validateRunStats r = .ok r := by
  intro p r h
  simp only [validateRunStats] at h
  cases hfe : fieldErrors p with
  | cons e es => rw [hfe] at h; simp at h
  | nil =>
    rw [hfe] at h
    simp only at h
    cases hce : crossError (normalizePayload p) with
    | some e => rw [hce] at h; simp at h
    | none =>
      rw [hce] at h
      simp only [Except.ok.injEq] at h
      subst h
      rcases (fieldErrors_eq_nil p).mp hfe with ⟨hsv, hrun, hdev, hrest⟩
      rcases (runIdErrs_eq_nil _).mp hrun with ⟨hr16, hr64, hrm⟩
      rcases (deviceIdErrs_eq_nil _).mp hdev with ⟨hd64, hdm⟩
      have hstripRun : pyStrip (pyStrip p.runId) = pyStrip p.runId :=
        pyStrip_of_matchRunId _ hrm
      have hlowHex : matchHex64 (pyLower (pyStrip p.deviceId)) = true :=
        matchHex64_pyLower _ hdm
      have hstripDev :
          pyStrip (pyLower (pyStrip p.deviceId)) = pyLower (pyStrip p.deviceId) :=
        pyStrip_of_matchHex64 _ hlowHex
      have hrunN : runIdErrs (normalizePayload p).runId = [] := by
        refine (runIdErrs_eq_nil _).mpr ⟨?_, ?_, ?_⟩
        · exact ((matchRunId_iff _).mp hrm).1
        · exact ((matchRunId_iff _).mp hrm).2.1
        · show matchRunId (pyStrip (pyStrip p.runId)) = true
          rw [hstripRun]; exact hrm
      have hdevN : deviceIdErrs (normalizePayload p).deviceId = [] := by
        refine (deviceIdErrs_eq_nil _).mpr ⟨?_, ?_⟩
        · show (pyLower (pyStrip p.deviceId)).length = 64
          have := ((matchHex64_iff _).mp hdm).1
          simpa [pyLower] using this
        · show matchHex64 (pyStrip (pyLower (pyStrip p.deviceId))) = true
          rw [hstripDev]; exact hlowHex
      have hfeN : fieldErrors (normalizePayload p) = [] := by
        refine (fieldErrors_eq_nil _).mpr ⟨hsv, hrunN, hdevN, hrest⟩
      have hnn : normalizePayload (normalizePayload p) = normalizePayload p := by
        show ({ normalizePayload p with
                  runId := pyStrip (normalizePayload p).runId,
                  deviceId := pyLower (pyStrip (normalizePayload p).deviceId) } :
            RunStatsPayload) = normalizePayload p
        have e1 : pyStrip (normalizePayload p).runId = (normalizePayload p).runId :=
          hstripRun
        have e2 :
            pyLower (pyStrip (normalizePayload p).deviceId) =
              (normalizePayload p).deviceId := by
          show pyLower (pyStrip (pyLower (pyStrip p.deviceId))) =
            pyLower (pyStrip p.deviceId)
          rw [hstripDev, pyLower_idem]
        rw [e1, e2]
      have hceN : crossError (normalizePayload (normalizePayload p)) = none := by
        rw [hnn]; exact hce
      simp only [validateRunStats]
      rw [hfeN]
      simp only
      rw [hceN, hnn]

/-- Claim C2 (amended): whenever `batchMin` and `batchMax` are both present
with `batchMin > batchMax` the record is always rejected; the rejection
carries the batch-order rule exactly when every individual field check
passes (otherwise pydantic reports the field errors and the cross-field
validator never runs). -/
theorem C2_batch_order_rejects :
    ∀ (p : RunStatsPayload) (a b : Int),
      p.batchMin = some a → p.batchMax = some b → b < a →
      isAccepted (validateRunStats p) = false
      ∧ (fieldErrors p = [] →
          validateRunStats p = .error ["batchMin must be <= batchMax"]) := by
  intro p a b hmin hmax hba
  have hcross :
      crossError (normalizePayload p) = some "batchMin must be <= batchMax" := by
    have hv : ltViol (normalizePayload p).batchMin (normalizePayload p).batchMax
        = true := by
      show ltViol p.batchMin p.batchMax = true
      rw [hmin, hmax]
      simpa [ltViol] using hba
    simp [crossError, hv]
  constructor
  · cases hfe : fieldErrors p with
    | cons e es => simp [validateRunStats, hfe, isAccepted]
    | nil => simp [validateRunStats, hfe, hcross, isAccepted]
  · intro hfe
    simp [validateRunStats, hfe, hcross]

/-- Claim C2, counterexample to the claim as stated: a record with
`batchMin > batchMax` and an individually invalid `runId` is rejected with
the `runId` error only; the batch-order rule is not reported. -/
theorem C2_batch_order_counterexample :
    cexFieldPayload.batchMin = some 2 ∧ cexFieldPayload.batchMax = some 1
    ∧ rejectionErrors (validateRunStats cexFieldPayload) =
        ["runId length out of range"]
    ∧ "batchMin must be <= batchMax" ∉
        rejectionErrors (validateRunStats cexFieldPayload)
    ∧ isAccepted (validateRunStats cexFieldPayload) = false := by
  decide

theorem C2_batch_order_rejects_witness :
    (wBatchPayload.batchMin = some 2 ∧ wBatchPayload.batchMax = some 1
      ∧ (1 : Int) < 2 ∧ fieldErrors wBatchPayload = [])
    ∧ isAccepted (validateRunStats wBatchPayload) = false
    ∧ validateRunStats wBatchPayload =
        .error ["batchMin must be <= batchMax"] := by
  refine ⟨⟨by decide, by decide, by decide, by decide⟩, ?_, ?_⟩
  · exact (C2_batch_order_rejects wBatchPayload 2 1 (by decide) (by decide)
      (by decide)).1
  · exact (C2_batch_order_rejects wBatchPayload 2 1 (by decide) (by decide)
      (by decide)).2 (by decide)

/-- Claim C3 (amended): validation trims the run and device identifiers and
lowercases the device identifier, but pydantic checks the raw length bounds
before the validators trim: acceptance with the trimmed, lowercased
identifiers holds for payloads whose untrimmed `runId` has length 16 to 64
and untrimmed `deviceId` has length exactly 64 (all other checks passing). -/
theorem C3_canonicalize_accepts :
    ∀ p : RunStatsPayload,
      svErrs p = [] → restErrs p = [] → crossError p = none →
      16 ≤ p.runId.length → p.runId.length ≤ 64 →
      p.deviceId.length = 64 →
      matchRunId (pyStrip p.runId) = true →
      matchHex64 (pyStrip p.deviceId) = true →
      validateRunStats p =
        .ok { p with runId := pyStrip p.runId,
                     deviceId := pyLower (pyStrip p.deviceId) } := by
  intro p hsv hrest hcross h16 h64 hd hmr hmh
  have hrun : runIdErrs p.runId = [] := (runIdErrs_eq_nil _).mpr ⟨h16, h64, hmr⟩
  have hdev : deviceIdErrs p.deviceId = [] := (deviceIdErrs_eq_nil _).mpr ⟨hd, hmh⟩
  have hfe : fieldErrors p = [] :=
    (fieldErrors_eq_nil p).mpr ⟨hsv, hrun, hdev, hrest⟩
  have hc : crossError (normalizePayload p) = none := hcross
  simp only [validateRunStats]
  rw [hfe]
  simp only
  rw [hc]
  rfl

/-- Claim C3, counterexample to the claim as stated: an otherwise-valid
payload whose `deviceId` is 64 hex digits plus a trailing space (trimmed
value matches the 64-hex pattern) is rejected, because the raw length
constraint 64 is checked before trimming. -/
theorem C3_trim_counterexample :
    matchHex64 (pyStrip cexDevicePayload.deviceId) = true
    ∧ matchRunId (pyStrip cexDevicePayload.runId) = true
    ∧ svErrs cexDevicePayload = [] ∧ restErrs cexDevicePayload = []
    ∧ crossError cexDevicePayload = none
    ∧ isAccepted (validateRunStats cexDevicePayload) = false := by
  decide

theorem C3_canonicalize_accepts_witness :
    (svErrs wTrimPayload = [] ∧ restErrs wTrimPayload = []
      ∧ crossError wTrimPayload = none
      ∧ 16 ≤ wTrimPayload.runId.length ∧ wTrimPayload.runId.length ≤ 64
      ∧ wTrimPayload.deviceId.length = 64
      ∧ matchRunId (pyStrip wTrimPayload.runId) = true
      ∧ matchHex64 (pyStrip wTrimPayload.deviceId) = true)
    ∧ validateRunStats wTrimPayload =
        .ok { wTrimPayload with
                runId := pyStrip wTrimPayload.runId,
                deviceId := pyLower (pyStrip wTrimPayload.deviceId) } := by
  refine ⟨⟨by decide, by decide, by decide, by decide, by decide, by decide,
    by decide, by decide⟩, ?_⟩
  exact C3_canonicalize_accepts wTrimPayload (by decide) (by decide) (by decide)
    (by decide) (by decide) (by decide) (by decide) (by decide)

theorem C9_validate_idempotent_witness :
    validateRunStats okPayload = .ok okPayload
    ∧ validateRunStats okPayload = .ok okPayload :=
  ⟨rfl, C9_validate_idempotent okPayload okPayload rfl⟩

theorem pairwise_le_getLast? :
    ∀ l : List RunSample,
    l.Pairwise (fun a b => a.received_at ≤ b.received_at) →
    ∀ y, l.getLast? = some y → ∀ x ∈ l, x.received_at ≤ y.received_at := by
  intro l
  induction l with
  | nil => intro _ y hy; simp at hy
  | cons a rest ih =>
    intro hp y hy x hx
    cases rest with
    | nil =>
      simp only [List.getLast?_singleton, Option.some.injEq] at hy
      subst hy
      rcases List.mem_cons.mp hx with rfl | h
      · exact le_refl _
      · simp at h
    | cons b t =>
      rw [List.getLast?_cons_cons] at hy
      rcases List.pairwise_cons.mp hp with ⟨ha, hp'⟩
      rcases List.mem_cons.mp hx with rfl | hx'
      · have hym : y ∈ b :: t := by
          rcases List.mem_getLast?_eq_getLast (Option.mem_def.mpr hy) with
            ⟨hne', heq⟩
          rw [heq]
          exact List.getLast_mem hne'
        exact ha y hym
      · exact ih hp' y hy x hx'

/-- Claim C1: for every non-empty time-ascending sample sequence of length N,
`build_summary` returns the median of the total rates of the trailing
min(50, N) samples as the estimated rate, sample_count = min(50, N),
total_runs = N, and the timestamp of the chronologically last sample; the
empty sequence yields the all-zero summary with no timestamp. -/
theorem C1_build_summary :
    (∀ samples : List RunSample, samples ≠ [] →
      samples.Pairwise (fun a b => a.received_at ≤ b.received_at) →
      ((build_summary samples).estimated_rate =
          median ((samples.drop (samples.length - min 50 samples.length)).map
            RunSample.total_rate)
        ∧ (build_summary samples).sample_count = min 50 samples.length
        ∧ (build_summary samples).total_runs = samples.length
        ∧ ∃ slast, samples.getLast? = some slast
            ∧ (build_summary samples).last_received_at = some slast.received_at
            ∧ ∀ s ∈ samples, s.received_at ≤ slast.received_at))
    ∧ build_summary [] =
        { estimated_rate := 0, sample_count := 0, total_runs := 0,
          unique_versions := 0, last_received_at := none } := by
  constructor
  · intro samples hne hp
    obtain ⟨a, l, rfl⟩ : ∃ a l, samples = a :: l := by
      cases samples with
      | nil => exact absurd rfl hne
      | cons a l => exact ⟨a, l, rfl⟩
    have hwin :
        (if 50 < (a :: l).length then (a :: l).drop ((a :: l).length - 50)
          else (a :: l))
        = (a :: l).drop ((a :: l).length - min 50 (a :: l).length) := by
      by_cases h : 50 < (a :: l).length
      · rw [if_pos h]
        congr 1
        omega
      · rw [if_neg h]
        have h0 : (a :: l).length - min 50 (a :: l).length = 0 := by omega
        rw [h0, List.drop_zero]
    have hcount :
        ((a :: l).drop ((a :: l).length - min 50 (a :: l).length)).length
          = min 50 (a :: l).length := by
      rw [List.length_drop]
      omega
    have hbs :
        build_summary (a :: l) =
          { estimated_rate :=
              median (((a :: l).drop ((a :: l).length - min 50 (a :: l).length)).map
                RunSample.total_rate)
            sample_count := min 50 (a :: l).length
            total_runs := (a :: l).length
            unique_versions :=
              (((a :: l).map RunSample.app_version).filter
                (fun v => decide (v ≠ []))).dedup.length
            last_received_at := ((a :: l).getLast?).map RunSample.received_at } := by
      simp only [build_summary, List.isEmpty_cons, Bool.false_eq_true, if_false]
      rw [hwin, hcount]
    refine ⟨by rw [hbs], by rw [hbs], by rw [hbs], ?_⟩
    obtain ⟨slast, hlast⟩ : ∃ y, (a :: l).getLast? = some y :=
      ⟨(a :: l).getLast hne, List.getLast?_eq_getLast_of_ne_nil hne⟩
    refine ⟨slast, hlast, ?_, pairwise_le_getLast? _ hp slast hlast⟩
    rw [hbs]
    simp [hlast]
  · rfl

theorem C1_build_summary_witness :
    (exSummary ≠ []
      ∧ exSummary.Pairwise (fun a b => a.received_at ≤ b.received_at))
    ∧ ((build_summary exSummary).estimated_rate =
        median ((exSummary.drop
          (exSummary.length - min 50 exSummary.length)).map RunSample.total_rate)
      ∧ (build_summary exSummary).sample_count = min 50 exSummary.length
      ∧ (build_summary exSummary).total_runs = exSummary.length
      ∧ ∃ slast, exSummary.getLast? = some slast
          ∧ (build_summary exSummary).last_received_at = some slast.received_at
          ∧ ∀ s ∈ exSummary, s.received_at ≤ slast.received_at) :=
  ⟨⟨by decide, by decide⟩, C1_build_summary.1 exSummary (by decide) (by decide)⟩

/-- Claim C6: `unique_versions` counts the distinct non-empty application
versions across ALL input samples, not just the trailing window of at most 50
samples used for the rate estimate; on the 51-sample example the count is 2
although the trailing 50-sample window contains a single version. -/
theorem C6_unique_versions :
    (∀ samples : List RunSample,
      (build_summary samples).unique_versions =
        ((samples.map RunSample.app_version).toFinset.filter
          (fun v => v ≠ [])).card)
    ∧ (build_summary exWindow).unique_versions = 2
    ∧ (((exWindow.drop (exWindow.length - 50)).map
          RunSample.app_version).toFinset.filter (fun v => v ≠ [])).card = 1 := by
  refine ⟨?_, by decide, by decide⟩
  intro samples
  have key : ∀ L : List PyStr,
      ((L.filter (fun v => decide (v ≠ []))).dedup).length =
        (L.toFinset.filter (fun v => v ≠ [])).card := by
    intro L
    rw [← List.card_toFinset, List.toFinset_filter]
    congr 1
    apply Finset.filter_congr
    intro x _
    simp
  cases samples with
  | nil => simp [build_summary]
  | cons a l =>
    simp only [build_summary, List.isEmpty_cons, Bool.false_eq_true, if_false]
    exact key _

theorem roundHalfEven_intCast (n : ℤ) : roundHalfEven ((n : ℚ)) = n := by
  simp only [roundHalfEven, Int.floor_intCast]
  norm_num

theorem formatFixed_of_scaled (d : Nat) (q : ℚ) (n : ℤ)
    (h : q * (10 : ℚ) ^ d = (n : ℚ)) :
    formatFixed d q =
      if d = 0 then toString (n / (10 : Int) ^ d)
      else toString (n / (10 : Int) ^ d)
        ++ "." ++ padZeros d (toString (n % (10 : Int) ^ d).toNat) := by
  simp only [formatFixed]
  rw [h, roundHalfEven_intCast]

/-- Claim C8: compact display formatting: for every non-negative value, the
suffix tiers B / M / k apply at the inclusive thresholds 1e9, 1e6, 1e3, and
smaller values get one decimal as a rate and zero decimals as a count; in
particular 1,500,000 formats as "1.50M/s" and "1.50M" (differing by exactly
the trailing "/s") and the rate 999 as "999.0/s". -/
theorem C8_format_compact :
    (∀ v : ℚ, 0 ≤ v →
      ((1000000000 ≤ v →
          format_rate v = formatFixed 2 (v / 1000000000) ++ "B/s"
          ∧ format_number v = formatFixed 2 (v / 1000000000) ++ "B")
        ∧ (1000000 ≤ v → v < 1000000000 →
          format_rate v = formatFixed 2 (v / 1000000) ++ "M/s"
          ∧ format_number v = formatFixed 2 (v / 1000000) ++ "M")
        ∧ (1000 ≤ v → v < 1000000 →
          format_rate v = formatFixed 1 (v / 1000) ++ "k/s"
          ∧ format_number v = formatFixed 1 (v / 1000) ++ "k")
        ∧ (v < 1000 →
          format_rate v = formatFixed 1 v ++ "/s"
          ∧ format_number v = formatFixed 0 v)))
    ∧ format_rate 1500000 = "1.50M/s"
    ∧ format_number 1500000 = "1.50M"
    ∧ format_rate 1500000 = format_number 1500000 ++ "/s"
    ∧ format_rate 999 = "999.0/s" := by
  have h15 : format_rate 1500000 = "1.50M/s" := by
    simp only [format_rate]
    rw [if_neg (by norm_num), if_pos (by norm_num)]
    rw [formatFixed_of_scaled 2 _ 150 (by norm_num)]
    decide
  have h15n : format_number 1500000 = "1.50M" := by
    simp only [format_number]
    rw [if_neg (by norm_num), if_pos (by norm_num)]
    rw [formatFixed_of_scaled 2 _ 150 (by norm_num)]
    decide
  have h999 : format_rate 999 = "999.0/s" := by
    simp only [format_rate]
    rw [if_neg (by norm_num), if_neg (by norm_num), if_neg (by norm_num)]
    rw [formatFixed_of_scaled 1 _ 9990 (by norm_num)]
    decide
  refine ⟨?_, h15, h15n, ?_, h999⟩
  · intro v _
    refine ⟨?_, ?_, ?_, ?_⟩
    · intro h9
      constructor
      · simp only [format_rate]
        rw [if_pos h9]
      · simp only [format_number]
        rw [if_pos h9]
    · intro h6 h9
      constructor
      · simp only [format_rate]
        rw [if_neg (not_le.mpr h9), if_pos h6]
      · simp only [format_number]
        rw [if_neg (not_le.mpr h9), if_pos h6]
    · intro h3 h6
      have h9 : ¬ (1000000000 : ℚ) ≤ v := by
        intro hc
        linarith
      constructor
      · simp only [format_rate]
        rw [if_neg h9, if_neg (not_le.mpr h6), if_pos h3]
      · simp only [format_number]
        rw [if_neg h9, if_neg (not_le.mpr h6), if_pos h3]
    · intro h3
      have h6 : ¬ (1000000 : ℚ) ≤ v := by
        intro hc
        linarith
      have h9 : ¬ (1000000000 : ℚ) ≤ v := by
        intro hc
        linarith
      constructor
      · simp only [format_rate]
        rw [if_neg h9, if_neg h6, if_neg (not_le.mpr h3)]
      · simp only [format_number]
        rw [if_neg h9, if_neg h6, if_neg (not_le.mpr h3)]
  · rw [h15, h15n]
    rfl

theorem C8_format_compact_witness :
    ((0 : ℚ) ≤ 1500000 ∧ (1000000 : ℚ) ≤ 1500000
      ∧ (1500000 : ℚ) < 1000000000)
    ∧ format_rate 1500000 = formatFixed 2 ((1500000 : ℚ) / 1000000) ++ "M/s"
    ∧ format_number 1500000 = formatFixed 2 ((1500000 : ℚ) / 1000000) ++ "M" :=
  ⟨⟨by norm_num, by norm_num, by norm_num⟩,
    (C8_format_compact.1 1500000 (by norm_num)).2.1 (by norm_num) (by norm_num)⟩

theorem filterMap_eq_map_of_forall_some {γ δ : Type} :
    ∀ (l : List γ) (f : γ → Option δ) (g : γ → δ),
    (∀ a ∈ l, f a = some (g a)) → l.filterMap f = l.map g := by
  intro l f g
  induction l with
  | nil => intro _; rfl
  | cons a t ih =>
    intro h
    rw [List.filterMap_cons, h a (List.mem_cons_self a t), List.map_cons,
      ih (fun b hb => h b (List.mem_cons_of_mem _ hb))]

theorem mem_orderedVersionsAux :
    ∀ (l : List RunSample) (acc : List PyStr) (v : PyStr),
    v ∈ orderedVersionsAux acc l → v ≠ [] ∧ ∃ s, s ∈ l ∧ s.app_version = v := by
  intro l
  induction l with
  | nil => intro acc v hv; simp [orderedVersionsAux] at hv
  | cons s rest ih =>
    intro acc v hv
    simp only [orderedVersionsAux] at hv
    split at hv
    · rename_i hc
      rcases List.mem_cons.mp hv with rfl | hv'
      · exact ⟨hc.1, s, List.mem_cons_self _ _, rfl⟩
      · rcases ih _ v hv' with ⟨h1, s', hs', he⟩
        exact ⟨h1, s', List.mem_cons_of_mem _ hs', he⟩
    · rcases ih _ v hv with ⟨h1, s', hs', he⟩
      exact ⟨h1, s', List.mem_cons_of_mem _ hs', he⟩

theorem orderedVersionsAux_eq :
    ∀ (l : List RunSample) (acc : List PyStr),
    orderedVersionsAux acc l =
      dedupKeepFirst (((l.map RunSample.app_version).filter
        (fun v => decide (v ≠ []))).filter (fun v => decide (v ∉ acc))) := by
  intro l
  induction l with
  | nil => intro acc; simp [orderedVersionsAux, dedupKeepFirst]
  | cons s rest ih =>
    intro acc
    simp only [orderedVersionsAux, List.map_cons, List.filter_cons]
    by_cases hne : s.app_version = []
    · rw [if_neg (fun hc => hc.1 hne)]
      have hd : decide (s.app_version ≠ []) = false := by simp [hne]
      rw [hd]
      simp only [Bool.false_eq_true, if_false]
      exact ih acc
    · have hd : decide (s.app_version ≠ []) = true := by simp [hne]
      rw [hd]
      simp only [if_true]
      by_cases hmem : s.app_version ∈ acc
      · rw [if_neg (fun hc => hc.2 hmem)]
        rw [List.filter_cons]
        have hd2 : decide (s.app_version ∉ acc) = false := by simp [hmem]
        rw [hd2]
        simp only [Bool.false_eq_true, if_false]
        exact ih acc
      · rw [if_pos ⟨hne, hmem⟩]
        rw [List.filter_cons]
        have hd2 : decide (s.app_version ∉ acc) = true := by simp [hmem]
        rw [hd2]
        simp only [if_true]
        rw [dedupKeepFirst]
        congr 1
        rw [ih (s.app_version :: acc)]
        congr 1
        rw [List.filter_filter, List.filter_filter, List.filter_filter]
        apply List.filter_congr
        intro a _
        by_cases h1 : a = s.app_version
        · simp [List.mem_cons, h1]
        · by_cases h2 : a ∈ acc
          · simp [List.mem_cons, h1, h2]
          · simp [List.mem_cons, h1, h2]

theorem bucketGet_bucketAdd_same :
    ∀ (b : List (PyStr × List ℚ)) (v : PyStr) (r : ℚ),
    bucketGet (bucketAdd b v r) v = bucketGet b v ++ [r] := by
  intro b v r
  induction b with
  | nil => simp [bucketAdd, bucketGet]
  | cons kv rest ih =>
    obtain ⟨k, rs⟩ := kv
    by_cases h : k = v
    · simp [bucketAdd, bucketGet, h]
    · simp [bucketAdd, bucketGet, h, ih]

theorem bucketGet_bucketAdd_other :
    ∀ (b : List (PyStr × List ℚ)) (v w : PyStr) (r : ℚ), w ≠ v →
    bucketGet (bucketAdd b v r) w = bucketGet b w := by
  intro b v w r hwv
  have hvw : v ≠ w := Ne.symm hwv
  induction b with
  | nil => simp [bucketAdd, bucketGet, hvw]
  | cons kv rest ih =>
    obtain ⟨k, rs⟩ := kv
    by_cases h : k = v
    · subst h
      simp [bucketAdd, bucketGet, hvw]
    · by_cases hkw : k = w
      · simp [bucketAdd, bucketGet, h, hkw, hvw, hwv, ih]
      · simp [bucketAdd, bucketGet, h, hkw, ih]

theorem foldl_buckets_get :
    ∀ (l : List RunSample) (b : List (PyStr × List ℚ)) (v : PyStr), v ≠ [] →
    bucketGet (l.foldl (fun b s => if s.app_version = [] then b
        else bucketAdd b s.app_version s.total_rate) b) v =
      bucketGet b v ++ ((l.filter (fun s => decide (s.app_version = v))).map
        RunSample.total_rate) := by
  intro l
  induction l with
  | nil => intro b v _; simp
  | cons s rest ih =>
    intro b v hv
    simp only [List.foldl_cons, List.filter_cons]
    by_cases h0 : s.app_version = []
    · rw [if_pos h0]
      have hd : decide (s.app_version = v) = false := by
        simp [h0, Ne.symm hv]
      rw [hd]
      simp only [Bool.false_eq_true, if_false]
      exact ih b v hv
    · rw [if_neg h0]
      by_cases hsv : s.app_version = v
      · subst hsv
        have hd : decide (s.app_version = s.app_version) = true := by simp
        rw [hd]
        simp only [if_true]
        rw [ih _ _ hv, bucketGet_bucketAdd_same, List.map_cons,
          List.append_assoc, List.singleton_append]
      · have hd : decide (s.app_version = v) = false := by simp [hsv]
        rw [hd]
        simp only [Bool.false_eq_true, if_false]
        rw [ih _ _ hv, bucketGet_bucketAdd_other _ _ _ _ (fun h => hsv h.symm)]

/-- Claim C5: the version bucketizer skips empty-version samples entirely,
groups the remaining samples by exact version string, returns the median
total rate per group, and orders the output by first appearance in the
input; versions first seen in order `[v2, v1, v2, v3]` yield output order
`[v2, v1, v3]`. -/
theorem C5_summarize_by_version :
    (∀ samples : List RunSample,
      summarize_by_version samples =
        (dedupKeepFirst ((samples.map RunSample.app_version).filter
            (fun v => decide (v ≠ [])))).map
          (fun v => (v, median ((samples.filter
              (fun s => decide (s.app_version = v))).map RunSample.total_rate))))
    ∧ (∀ samples : List RunSample, ∀ q ∈ summarize_by_version samples, q.1 ≠ [])
    ∧ exBuckets.map RunSample.app_version =
        [strL "v2", strL "v1", strL "v2", strL "v3"]
    ∧ (summarize_by_version exBuckets).map Prod.fst =
        [strL "v2", strL "v1", strL "v3"] := by
  refine ⟨?_, ?_, by decide, by decide⟩
  · intro samples
    have hOV : orderedVersions samples =
        dedupKeepFirst ((samples.map RunSample.app_version).filter
          (fun v => decide (v ≠ []))) := by
      unfold orderedVersions
      rw [orderedVersionsAux_eq samples []]
      congr 1
      apply List.filter_eq_self.mpr
      intro a _
      simp
    simp only [summarize_by_version]
    rw [← hOV]
    apply filterMap_eq_map_of_forall_some
    intro v hv
    rcases mem_orderedVersionsAux samples [] v hv with ⟨hvne, s, hs, hsv⟩
    have hbg : bucketGet (buildBuckets samples) v =
        (samples.filter (fun s => decide (s.app_version = v))).map
          RunSample.total_rate := by
      have h := foldl_buckets_get samples [] v hvne
      simpa [buildBuckets, bucketGet] using h
    have hmem : s ∈ samples.filter (fun s => decide (s.app_version = v)) :=
      List.mem_filter.mpr ⟨hs, by simp [hsv]⟩
    have hne2 : bucketGet (buildBuckets samples) v ≠ [] := by
      rw [hbg]
      intro hcon
      rw [List.map_eq_nil_iff] at hcon
      rw [hcon] at hmem
      simp at hmem
    rw [hbg] at hne2 ⊢
    rw [if_pos hne2]
  · intro samples q hq
    simp only [summarize_by_version] at hq
    rcases List.mem_filterMap.mp hq with ⟨v, hv, hf⟩
    rcases mem_orderedVersionsAux samples [] v hv with ⟨hvne, _⟩
    split at hf
    · rcases Option.some.inj hf with rfl
      exact hvne
    · simp at hf

theorem C5_summarize_by_version_witness :
    (strL "x", (7 : ℚ)) ∈ summarize_by_version exSingle
    ∧ (strL "x", (7 : ℚ)).1 ≠ [] :=
  ⟨by decide, C5_summarize_by_version.2.1 exSingle (strL "x", (7 : ℚ)) (by decide)⟩

theorem rowToSample_version_ne_nil (r : StoredRow) :
    (rowToSample r).app_version ≠ [] := by
  simp only [rowToSample]
  split
  · decide
  · rename_i h
    exact h

theorem parse_samples_version_ne :
    ∀ rows : List StoredRow, ∀ s ∈ parse_samples rows, s.app_version ≠ [] := by
  intro rows s hs
  unfold parse_samples at hs
  rw [mem_sortByKey] at hs
  rcases List.mem_map.mp hs with ⟨r, _, rfl⟩
  exact rowToSample_version_ne_nil r

theorem foldl_buckets_all :
    ∀ (l : List RunSample) (b : List (PyStr × List ℚ)),
    (∀ s ∈ l, s.app_version ≠ []) →
    l.foldl (fun b s => if s.app_version = [] then b
      else bucketAdd b s.app_version s.total_rate) b =
    l.foldl (fun b s => bucketAdd b s.app_version s.total_rate) b := by
  intro l
  induction l with
  | nil => intro b _; rfl
  | cons s rest ih =>
    intro b h
    simp only [List.foldl_cons]
    rw [if_neg (h s (List.mem_cons_self _ _))]
    exact ih _ (fun x hx => h x (List.mem_cons_of_mem _ hx))

theorem orderedVersionsAux_all :
    ∀ (l : List RunSample) (acc : List PyStr),
    (∀ s ∈ l, s.app_version ≠ []) →
    orderedVersionsAux acc l = orderedVersionsAllAux acc l := by
  intro l
  induction l with
  | nil => intro acc _; rfl
  | cons s rest ih =>
    intro acc h
    have hne := h s (List.mem_cons_self _ _)
    have hrest := fun x hx => h x (List.mem_cons_of_mem _ hx)
    simp only [orderedVersionsAux, orderedVersionsAllAux]
    by_cases hmem : s.app_version ∈ acc
    · rw [if_neg (fun hc => hc.2 hmem), if_neg (fun hc => hc hmem)]
      exact ih acc hrest
    · rw [if_pos ⟨hne, hmem⟩, if_pos hmem, ih _ hrest]

theorem summarize_all_eq :
    ∀ samples : List RunSample, (∀ s ∈ samples, s.app_version ≠ []) →
    summarize_by_version samples = summarize_by_version_all samples := by
  intro samples h
  simp only [summarize_by_version, summarize_by_version_all, buildBuckets,
    buildBucketsAll, orderedVersions]
  rw [foldl_buckets_all _ _ h, orderedVersionsAux_all _ _ h]

/-- Claim C10: every sample produced by `parse_samples` has a non-empty
application version (an empty stored version becomes the literal token
`unknown`), so over parsed samples the bucketizer's empty-version skip and
the summary's non-empty-version filter are vacuous, and a stored row with an
empty version forms a distinct `unknown` bucket and adds one to
`unique_versions`. -/
theorem C10_parsed_version_nonempty :
    (∀ rows : List StoredRow, ∀ s ∈ parse_samples rows, s.app_version ≠ [])
    ∧ (∀ rows : List StoredRow,
        summarize_by_version (parse_samples rows) =
          summarize_by_version_all (parse_samples rows))
    ∧ (∀ rows : List StoredRow,
        ((parse_samples rows).map RunSample.app_version).filter
            (fun v => decide (v ≠ []))
          = (parse_samples rows).map RunSample.app_version)
    ∧ (parse_samples exRows).map RunSample.app_version =
        [strL "unknown", strL "v1"]
    ∧ (summarize_by_version (parse_samples exRows)).map Prod.fst =
        [strL "unknown", strL "v1"]
    ∧ (build_summary (parse_samples exRows)).unique_versions = 2 := by
  refine ⟨parse_samples_version_ne, ?_, ?_, by decide, by decide, by decide⟩
  · intro rows
    exact summarize_all_eq _ (parse_samples_version_ne rows)
  · intro rows
    apply List.filter_eq_self.mpr
    intro v hv
    rcases List.mem_map.mp hv with ⟨s, hs, rfl⟩
    simp [parse_samples_version_ne rows s hs]

theorem C10_parsed_version_nonempty_witness :
    sUnknown ∈ parse_samples exRows ∧ sUnknown.app_version ≠ [] :=
  ⟨by decide, C10_parsed_version_nonempty.1 exRows sUnknown (by decide)⟩
